import Mathlib

/-!
Verification of the two PySyft tutorial notebooks:

* `examples/tutorials/advanced/Split Neural Network/SplitNN Introduction.ipynb`
* `examples/tutorials/Part 12 bis - Encrypted Training on MNIST.ipynb`

The notebooks are straight-line glue code over PySyft's pointer-tensor and
secret-sharing API.  We embed them shallowly: tensors are symbolic values
carrying a provenance term, a location (which worker holds them) and autograd
metadata; each PySyft primitive (`send`, `move`, `detach`, `share`,
`fix_precision`, `get`, ...) is a Lean function on these values that also
emits the step it performs, so that the transfer / reveal trace of a
notebook cell is a computable list we can reason about.
-/

namespace SplitNN

/-- Workers of the SplitNN notebook: the local (coordinating) worker and the
two `sy.VirtualWorker`s `alice` and `bob`. -/
inductive Worker
  | localWorker
  | alice
  | bob
  deriving DecidableEq, Repr

/-- Symbolic provenance of a tensor value in the SplitNN notebook.  `input i`
is the i-th raw image batch, `labels i` the i-th label batch; the other
constructors mirror the torch operations the notebook applies. -/
inductive Data
  | input (i : Nat)
  | labels (i : Nat)
  | reshaped (d : Data)
  | forwardResult (seg : Nat) (d : Data)
  | detached (d : Data)
  | nllLossOf (pred target : Data)
  | gradOf (d : Data)
  | copyOf (d : Data)
  deriving DecidableEq, Repr

/-- A (pointer) tensor: its symbolic value, the worker holding it, whether it
tracks gradients, and its accumulated gradient if any. -/
structure Tensor where
  data : Data
  location : Worker
  requiresGrad : Bool
  grad : Option Data
  deriving DecidableEq, Repr

/-- A model segment of the split network: its index in the `models` list and
the worker currently holding its parameters. -/
structure ModelSegment where
  seg : Nat
  location : Worker
  deriving DecidableEq, Repr

/-- One step performed by the notebook code.  `transfer d src dst` records
that a tensor with value `d` left worker `src` for worker `dst`
(`send`, `move` and `get` all produce such a step). -/
inductive Step
  | zeroGrad (optIdx : Nat)
  | forward (seg : Nat) (inputData : Data) (at_ : Worker)
  | detachStep (d : Data)
  | transfer (d : Data) (src dst : Worker)
  | requiresGradStep (d : Data)
  | computeLoss (pred target : Data)
  | backwardStep (lossD : Data)
  | copyStep (d : Data)
  | backwardWithGrad (a gradA : Data)
  | optStepStep (optIdx : Nat)
  deriving DecidableEq, Repr

/-- Embeds `t.detach()`: same value and location, cut from the autograd graph. -/
def Tensor.detach (t : Tensor) : Tensor × Step :=
  ({ data := .detached t.data, location := t.location,
     requiresGrad := false, grad := none },
   .detachStep t.data)

/-- Embeds `t.move(dst)`: relocate the tensor to `dst`, emitting a transfer. -/
def Tensor.move (t : Tensor) (dst : Worker) : Tensor × Step :=
  ({ t with location := dst }, .transfer t.data t.location dst)

/-- Embeds `t.send(dst)`: the notebook uses `send` on local tensors; like `move` it
relocates the tensor and emits a transfer. -/
def Tensor.send (t : Tensor) (dst : Worker) : Tensor × Step :=
  t.move dst

/-- Embeds `t.get()`: fetch the tensor back to the local worker. -/
def Tensor.get (t : Tensor) : Tensor × Step :=
  ({ t with location := .localWorker }, .transfer t.data t.location .localWorker)

/-- Embeds `t.requires_grad_()`: re-enable gradient tracking in place. -/
def Tensor.requiresGradInPlace (t : Tensor) : Tensor × Step :=
  ({ t with requiresGrad := true }, .requiresGradStep t.data)

/-- Embeds `t.copy()`: duplicate the tensor at its current location. -/
def Tensor.copy (t : Tensor) : Tensor × Step :=
  ({ t with data := .copyOf t.data }, .copyStep t.data)

/-- Embeds `t.view(t.shape[0], -1)`: reshape; a pure local operation. -/
def Tensor.view2d (t : Tensor) : Tensor :=
  { t with data := .reshaped t.data }

/-- Embeds `models[seg](t)`: the forward pass of a segment.  PySyft requires the
input pointer and the model to live on the same worker; the result stays
there and tracks gradients. -/
def ModelSegment.apply (m : ModelSegment) (t : Tensor) : Option (Tensor × Step) :=
  if t.location = m.location then
    some ({ data := .forwardResult m.seg t.data, location := m.location,
            requiresGrad := true, grad := none },
          .forward m.seg t.data m.location)
  else none

/-- Embeds `nn.NLLLoss()(pred, target)`: both tensors must be held by the same
worker; the scalar loss stays there. -/
def nllLoss (pred target : Tensor) : Option (Tensor × Step) :=
  if pred.location = target.location then
    some ({ data := .nllLossOf pred.data target.data, location := pred.location,
            requiresGrad := true, grad := none },
          .computeLoss pred.data target.data)
  else none

/-- Embeds `loss.backward()`: the graph behind `loss` was cut at the detached
activation, so backpropagation stays on the loss's worker and populates the
gradient of the re-attached leaf `remote_a`. -/
def Tensor.backwardLoss (loss leaf : Tensor) : Tensor × Step :=
  ({ leaf with grad := some (.gradOf leaf.data) }, .backwardStep loss.data)

/-- Embeds `t.grad`: the gradient of `t` as a tensor at `t`'s location, if present. -/
def Tensor.gradTensor (t : Tensor) : Option Tensor :=
  t.grad.map (fun g => { data := g, location := t.location,
                         requiresGrad := false, grad := none })

/-- Embeds `a.backward(grad_a)`: seeded backpropagation; PySyft requires the seed
gradient to live where `a` lives. -/
def backwardWith (a gradA : Tensor) : Option Step :=
  if gradA.location = a.location then some (.backwardWithGrad a.data gradA.data)
  else none

/-- Result of one call of the notebook's `train` function: the returned loss
tensor, the model segments and optimizer list as `train` leaves them, and
the trace of steps performed. -/
structure TrainOutput where
  loss : Tensor
  models : List ModelSegment
  optimizers : List Nat
  steps : List Step
  deriving DecidableEq, Repr

/-- The notebook's `train(x, target, models, optimizers)` function, step by
step in source order.  Optimizers are identified by their index; `zero_grad`
and `step` touch gradients only, never locations. -/
def train (x target : Tensor) (models : List ModelSegment) (optimizers : List Nat) :
    Option TrainOutput := do
  -- 1) erase previous gradients
  let zeroSteps := optimizers.map Step.zeroGrad
  let m0 ← models[0]?
  let m1 ← models[1]?
  -- 2) make a prediction
  let (a, sForward0) ← m0.apply x
  -- 3) break the computation graph link, and send the activation signal
  let (aDet, sDetach) := a.detach
  let (aMoved, sMove) := aDet.move m1.location
  let (remote_a, sReq) := aMoved.requiresGradInPlace
  -- 4) make prediction on next model using received signal
  let (pred, sForward1) ← m1.apply remote_a
  -- 5) calculate how much we missed
  let (loss, sLoss) ← nllLoss pred target
  -- 6) figure out which weights caused us to miss
  let (remote_a, sBackward) := loss.backwardLoss remote_a
  -- 7) send gradient of the received activation signal to the model behind
  let gradT ← remote_a.gradTensor
  let (gradCopy, sCopy) := gradT.copy
  let (grad_a, sMoveGrad) := gradCopy.move m0.location
  -- 8) backpropagate on bottom model given this gradient
  let sBackA ← backwardWith a grad_a
  -- 9) change the weights
  let stepSteps := optimizers.map Step.optStepStep
  -- 10) return our progress
  let (lossDet, sLossDetach) := loss.detach
  let (lossLocal, sGet) := lossDet.get
  return { loss := lossLocal, models := models, optimizers := optimizers,
           steps := zeroSteps ++
             [sForward0, sDetach, sMove, sReq, sForward1, sLoss, sBackward,
              sCopy, sMoveGrad, sBackA] ++ stepSteps ++ [sLossDetach, sGet] }

/-- The `models` list before sending: both segments built locally. -/
def modelsLocal : List ModelSegment := [⟨0, .localWorker⟩, ⟨1, .localWorker⟩]

/-- The notebook's `model_locations = [alice, bob]`. -/
def model_locations : List Worker := [.alice, .bob]

/-- Embeds `model.send(location)` for a segment. -/
def ModelSegment.sendTo (m : ModelSegment) (w : Worker) : ModelSegment :=
  { m with location := w }

/-- The notebook's model-send loop: after it, segment 0 lives on alice and
segment 1 on bob. -/
def models : List ModelSegment :=
  (modelsLocal.zip model_locations).map (fun p => p.1.sendTo p.2)

/-- One optimizer per segment, identified by index. -/
def optimizers : List Nat := [0, 1]

/-- The i-th raw image batch, freshly loaded on the local worker. -/
def images0 (i : Nat) : Tensor := ⟨.input i, .localWorker, false, none⟩

/-- The i-th label batch, freshly loaded on the local worker. -/
def labels0 (i : Nat) : Tensor := ⟨.labels i, .localWorker, false, none⟩

/-- One iteration of the notebook's training loop on batch `i`:
`images.send(alice)`, `view`, `labels.send(bob)`, then `train`.  Returns the
fetched loss and the step trace of the whole iteration. -/
def trainingLoopBatch (i : Nat) : Option (Tensor × List Step) :=
  let (imagesA, sSendImages) := (images0 i).send .alice
  let imagesV := imagesA.view2d
  let (labelsB, sSendLabels) := (labels0 i).send .bob
  (train imagesV labelsB models optimizers).map
    (fun out => (out.loss, sSendImages :: sSendLabels :: out.steps))

/-- The transfer content of a step, if it is a transfer. -/
def Step.transferData : Step → Option (Data × Worker × Worker)
  | .transfer d src dst => some (d, src, dst)
  | _ => none

/-- The transfers of a trace whose endpoints are both remote parties
(neither end is the local worker): the alice/bob party boundary. -/
def crossPartyTransfers (steps : List Step) : List (Data × Worker × Worker) :=
  (steps.filterMap Step.transferData).filter
    (fun t => decide (t.2.1 ≠ Worker.localWorker) && decide (t.2.2 ≠ Worker.localWorker))

/-- Whether a value is (a reshape of) a raw input batch. -/
def Data.isRawInput : Data → Bool
  | .input _ => true
  | .reshaped d => d.isRawInput
  | _ => false

/-- Whether a value is a raw label batch. -/
def Data.isRawLabels : Data → Bool
  | .labels _ => true
  | _ => false

/-- Abbreviation: the value of `x` inside `train` (the sent, reshaped batch). -/
def xData (i : Nat) : Data := .reshaped (.input i)

/-- The activation `a` of the bottom segment. -/
def aData (i : Nat) : Data := .forwardResult 0 (xData i)

/-- The detached activation `remote_a` moved to bob. -/
def remoteAData (i : Nat) : Data := .detached (aData i)

/-- The top segment's prediction. -/
def predData (i : Nat) : Data := .forwardResult 1 (remoteAData i)

/-- The NLL loss value. -/
def lossData (i : Nat) : Data := .nllLossOf (predData i) (.labels i)

/-- The copied gradient `grad_a` moved back to alice. -/
def gradAData (i : Nat) : Data := .copyOf (.gradOf (remoteAData i))

end SplitNN

namespace Encrypted

/-- A PySyft `sy.VirtualWorker(hook, id=...)`: identified by its id string. -/
structure VirtualWorker where
  id : String
  deriving DecidableEq, Repr

/-- The notebook's `connect_to_workers(n_workers)`. -/
def connect_to_workers (n_workers : Nat) : List VirtualWorker :=
  (List.range n_workers).map (fun i => ⟨"worker" ++ toString (i + 1)⟩)

/-- The notebook's `connect_to_crypto_provider()`. -/
def connect_to_crypto_provider : VirtualWorker :=
  ⟨"crypto_provider"⟩

/-- The notebook's `workers = connect_to_workers(n_workers=2)`. -/
def workers : List VirtualWorker := connect_to_workers 2

/-- The notebook's `crypto_provider = connect_to_crypto_provider()`. -/
def crypto_provider : VirtualWorker := connect_to_crypto_provider

/-- The `Arguments` hyper-parameter class (all values public). -/
structure Arguments where
  batch_size : Nat
  test_batch_size : Nat
  epochs : Nat
  lr : ℚ
  seed : Nat
  log_interval : Nat
  precision_fractional : Nat
  deriving DecidableEq, Repr

/-- The notebook's `args = Arguments()` with `epochs = 10` from the parameters cell. -/
def args : Arguments :=
  { batch_size := 64, test_batch_size := 64, epochs := 10, lr := 2 / 100,
    seed := 1, log_interval := 1, precision_fractional := 3 }

/-- The notebook's `n_train_items = 640`. -/
def n_train_items : Nat := 640

/-- The notebook's `n_test_items = 640`. -/
def n_test_items : Nat := 640

/-- Symbolic identity of a plaintext tensor of the encrypted-training
notebook.  `dataBatch i` is the i-th training image batch,
`oneHotLabelBatch i` the value `one_hot_of(target_i)`, `testLabelBatch i`
the value `target_i.float()`, `modelParam nm` the parameter `nm` of `Net`. -/
inductive Plain
  | dataBatch (i : Nat)
  | oneHotLabelBatch (i : Nat)
  | testDataBatch (i : Nat)
  | testLabelBatch (i : Nat)
  | modelParam (name : String)
  deriving DecidableEq, Repr

/-- A tensor as the MPC layer sees it: either a raw real-valued tensor, a
fixed-precision integer encoding of one (integers in a finite ring, scaled
by `10 ^ precision_fractional`), or an additive secret sharing of one among
`owners`, with `cryptoProvider` supplying crypto primitives only. -/
inductive EncTensor
  | raw (p : Plain)
  | fixedPrecision (precision_fractional : Nat) (t : EncTensor)
  | shared (owners : List VirtualWorker) (cryptoProvider : VirtualWorker)
      (requiresGrad : Bool) (t : EncTensor)
  deriving DecidableEq, Repr

/-- Embeds `t.fix_precision(precision_fractional=p)`. -/
def EncTensor.fix_precision (t : EncTensor) (precision_fractional : Nat) : EncTensor :=
  .fixedPrecision precision_fractional t

/-- Embeds `t.share(*owners, crypto_provider=cp, requires_grad=True)`: shares are
distributed among `owners` only; `cp` holds no share. -/
def EncTensor.share (t : EncTensor) (owners : List VirtualWorker)
    (cp : VirtualWorker) : EncTensor :=
  .shared owners cp true t

/-- The notebook's `secret_share(tensor)`: fixed precision first, then
secret sharing. -/
def secret_share (precision_fractional : Nat) (ws : List VirtualWorker)
    (cp : VirtualWorker) (tensor : EncTensor) : EncTensor :=
  (tensor.fix_precision precision_fractional).share ws cp

/-- Embeds `torch.zeros(n, cols)` as a rational matrix. -/
def torchZeros (n cols : Nat) : List (List ℚ) :=
  List.replicate n (List.replicate cols 0)

/-- Embeds `index_tensor.view(-1, 1)`: one column per entry. -/
def viewCol (t : List Nat) : List (List Nat) :=
  t.map (fun x => [x])

/-- Embeds `t.scatter(1, index, src)` for a matrix `t` and an index tensor of the
same number of rows: within each row, position `j` of the index row sets
column `index[i][j]` of the result row to `src`. -/
def scatterDim1 (t : List (List ℚ)) (index : List (List Nat)) (src : ℚ) :
    List (List ℚ) :=
  t.zipWith (fun row ixs => ixs.foldl (fun r j => r.set j src) row) index

/-- The notebook's `one_hot_of(index_tensor)`:
`torch.zeros(*index_tensor.shape, 10).scatter(1, index_tensor.view(-1, 1), 1)`. -/
def one_hot_of (index_tensor : List Nat) : List (List ℚ) :=
  scatterDim1 (torchZeros index_tensor.length 10) (viewCol index_tensor) 1

/-- The row the claim expects for digit `x`: value 1 exactly at column `x`. -/
def oneHotRow (x : Nat) : List ℚ :=
  (List.range 10).map (fun j => if j = x then 1 else 0)

/-- The notebook's `get_private_data_loaders`.  The MNIST loaders are
abstracted by how many batches they yield (`trainBatches`, `testBatches`,
938 and 157 for real MNIST at batch size 64); batch `i` of either loader is
the symbolic pair `(dataBatch i, target_i)`.  The comprehensions keep batch
`i` exactly when `i < n_items / batch_size` (real division, as in Python 3),
secret-sharing the data and the one-hot (resp. `.float()`) labels. -/
def get_private_data_loaders (precision_fractional : Nat)
    (ws : List VirtualWorker) (cp : VirtualWorker)
    (trainBatches testBatches : Nat) :
    List (EncTensor × EncTensor) × List (EncTensor × EncTensor) :=
  (((List.range trainBatches).filter
      (fun (i : Nat) => decide ((i : ℚ) < (n_train_items : ℚ) / (args.batch_size : ℚ)))).map
     (fun i => (secret_share precision_fractional ws cp (.raw (.dataBatch i)),
                secret_share precision_fractional ws cp (.raw (.oneHotLabelBatch i)))),
   ((List.range testBatches).filter
      (fun (i : Nat) => decide ((i : ℚ) < (n_test_items : ℚ) / (args.test_batch_size : ℚ)))).map
     (fun i => (secret_share precision_fractional ws cp (.raw (.testDataBatch i)),
                secret_share precision_fractional ws cp (.raw (.testLabelBatch i)))))

/-- The parameters of `Net` (three `nn.Linear` layers). -/
def netParams : List String :=
  ["fc1.weight", "fc1.bias", "fc2.weight", "fc2.bias", "fc3.weight", "fc3.bias"]

/-- Embeds `model = Net(); model.fix_precision().share(*workers,
crypto_provider=crypto_provider, requires_grad=True)`, parameter-wise.
`fix_precision()` is called without argument, so its library-default
fractional precision `defaultPrec` is left abstract. -/
def shared_model (defaultPrec : Nat) : List EncTensor :=
  netParams.map
    (fun nm => ((EncTensor.raw (.modelParam nm)).fix_precision defaultPrec).share
      workers crypto_provider)

/-- A value living inside the MPC computation, by provenance. -/
inductive MPCVal
  | fromPlain (p : Plain)
  | modelOutput (epoch batchIdx : Nat)
  | batchLoss (epoch batchIdx : Nat)
  | correctCount (epoch : Nat)
  deriving DecidableEq, Repr

/-- An event of the notebook run that touches the party boundary:
`shareEvent p o c` records that plaintext `p` was secret shared among
owners `o` with crypto provider `c`; `revealEvent v` records a
`.get().float_precision()` call reconstructing `v` in plaintext on the
local worker. -/
inductive RunEvent
  | shareEvent (p : Plain) (owners : List VirtualWorker) (cp : VirtualWorker)
  | revealEvent (v : MPCVal)
  deriving DecidableEq, Repr

/-- The plaintext identity underlying an `EncTensor`. -/
def EncTensor.plainOf : EncTensor → Plain
  | .raw p => p
  | .fixedPrecision _ t => t.plainOf
  | .shared _ _ _ t => t.plainOf

/-- The share events performed while building an `EncTensor`. -/
def EncTensor.shareEvents : EncTensor → List RunEvent
  | .raw _ => []
  | .fixedPrecision _ t => t.shareEvents
  | .shared o c _ t => t.shareEvents ++ [.shareEvent t.plainOf o c]

/-- All share events of a private data loader. -/
def shareEventsOfLoader (l : List (EncTensor × EncTensor)) : List RunEvent :=
  l.flatMap (fun pr => pr.1.shareEvents ++ pr.2.shareEvents)

/-- The events of one call `train(args, model, private_train_loader,
optimizer, epoch)`: the loss tensor is fetched and decoded
(`loss.get().float_precision()`) for every batch index divisible by
`args.log_interval`; nothing else leaves the shared world. -/
def trainEvents (epoch : Nat) (loader : List (EncTensor × EncTensor)) :
    List RunEvent :=
  (List.range loader.length).flatMap
    (fun batch_idx =>
      if batch_idx % args.log_interval = 0 then
        [.revealEvent (.batchLoss epoch batch_idx)]
      else [])

/-- The events of one call `test(args, model, private_test_loader)`: only
the aggregate correct-prediction count is fetched and decoded. -/
def testEvents (epoch : Nat) : List RunEvent :=
  [.revealEvent (.correctCount epoch)]

/-- Phase 1 of the run: building the private loaders and sharing the model. -/
def dataSharePhase (defaultPrec trainBatches testBatches : Nat) : List RunEvent :=
  let loaders := get_private_data_loaders args.precision_fractional workers
    crypto_provider trainBatches testBatches
  shareEventsOfLoader loaders.1 ++ shareEventsOfLoader loaders.2 ++
    (shared_model defaultPrec).flatMap EncTensor.shareEvents

/-- Phase 2 of the run: `for epoch in range(1, args.epochs + 1): train(...);
test(...)`. -/
def trainTestPhase (trainBatches testBatches : Nat) : List RunEvent :=
  let loaders := get_private_data_loaders args.precision_fractional workers
    crypto_provider trainBatches testBatches
  (List.range args.epochs).flatMap
    (fun e => trainEvents (e + 1) loaders.1 ++ testEvents (e + 1))

/-- The full boundary-event trace of the encrypted-training notebook. -/
def fullRunEvents (defaultPrec trainBatches testBatches : Nat) : List RunEvent :=
  dataSharePhase defaultPrec trainBatches testBatches ++
    trainTestPhase trainBatches testBatches

/-- Whether a tensor is a fixed-precision encoding (with the given
fractional precision) that was then secret shared among `ws` via `cp`:
the shape `secret_share` produces. -/
def isFixedThenShared (prec : Nat) (ws : List VirtualWorker)
    (cp : VirtualWorker) (t : EncTensor) : Bool :=
  match t with
  | .shared o c _ (.fixedPrecision q (.raw _)) =>
      decide (o = ws) && decide (c = cp) && decide (q = prec)
  | _ => false

end Encrypted

namespace Inventory

/-- How a worker object is constructed in PySyft. -/
inductive WorkerKind
  | virtualWorker
  | websocketClientWorker
  | websocketServerWorker
  deriving DecidableEq, Repr

/-- One worker-creating call occurring in the notebooks. -/
structure WorkerCreation where
  notebook : String
  workerId : String
  kind : WorkerKind
  deriving DecidableEq, Repr

/-- All worker-creating calls in the two notebooks: `alice` and `bob` in the
SplitNN notebook, `worker1`, `worker2` (via `connect_to_workers`) and
`crypto_provider` (via `connect_to_crypto_provider`) in the
encrypted-training notebook.  Every one is `sy.VirtualWorker(hook, id=...)`. -/
def workerCreations : List WorkerCreation :=
  [⟨"SplitNN Introduction", "alice", .virtualWorker⟩,
   ⟨"SplitNN Introduction", "bob", .virtualWorker⟩,
   ⟨"Part 12 bis", "worker1", .virtualWorker⟩,
   ⟨"Part 12 bis", "worker2", .virtualWorker⟩,
   ⟨"Part 12 bis", "crypto_provider", .virtualWorker⟩]

/-- Every module imported by either notebook. -/
def importedModules : List String :=
  ["numpy", "torch", "torchvision", "matplotlib.pyplot", "time",
   "torchvision.datasets", "torchvision.transforms", "torch.nn", "torch.optim",
   "torch.nn.functional", "syft"]

/-- Python modules providing threads, processes, sockets or locks. -/
def concurrencyModules : List String :=
  ["threading", "_thread", "multiprocessing", "concurrent.futures", "asyncio",
   "socket", "socketserver", "queue", "subprocess", "selectors"]

end Inventory

open SplitNN in
/-- C3: for every batch, the SplitNN `train` function performs exactly these
steps in this order: zero the gradients of both optimizers; forward on the
first segment; detach the activation, move it to the second segment's
location and re-enable gradients on it; forward on the second segment;
compute the NLL loss against the target; call backward on the loss; copy the
gradient of the moved activation and move it to the first segment's
location; call backward on the original activation with that gradient; step
both optimizers; and return the detached loss fetched to the local worker. -/
theorem splitnn_train_performs_exact_step_sequence (i : Nat) :
    train ⟨xData i, .alice, false, none⟩ ⟨.labels i, .bob, false, none⟩
        models optimizers =
      some { loss := ⟨.detached (lossData i), .localWorker, false, none⟩,
             models := models, optimizers := optimizers,
             steps :=
               [.zeroGrad 0, .zeroGrad 1,
                .forward 0 (xData i) .alice,
                .detachStep (aData i),
                .transfer (remoteAData i) .alice .bob,
                .requiresGradStep (remoteAData i),
                .forward 1 (remoteAData i) .bob,
                .computeLoss (predData i) (.labels i),
                .backwardStep (lossData i),
                .copyStep (.gradOf (remoteAData i)),
                .transfer (gradAData i) .bob .alice,
                .backwardWithGrad (aData i) (gradAData i),
                .optStepStep 0, .optStepStep 1,
                .detachStep (lossData i),
                .transfer (.detached (lossData i)) .bob .localWorker] } := rfl

open SplitNN in
/-- C1: in the SplitNN training step (the loop body: send the batch to
alice, send the labels to bob, run `train`), the only values transferred
across the alice/bob party boundary are the detached bottom-segment
activation (alice to bob) and the copied gradient of that activation (bob to
alice); no transfer anywhere in the trace carries the raw input batch to bob
or the raw labels to alice. -/
theorem splitnn_party_boundary_carries_only_activation_and_gradient (i : Nat) :
    ((trainingLoopBatch i).map (fun r => crossPartyTransfers r.2)) =
      some [(remoteAData i, .alice, .bob), (gradAData i, .bob, .alice)] ∧
    ((trainingLoopBatch i).map
        (fun r => (r.2.filterMap Step.transferData).filter
          (fun t => (t.1.isRawInput && decide (t.2.2 = Worker.bob)) ||
                    (t.1.isRawLabels && decide (t.2.2 = Worker.alice))))) =
      some [] := ⟨rfl, rfl⟩

/-- C10: after the model-send loop places segment 0 on alice and segment 1
on bob, every call of the SplitNN `train` function returns the model
segments (and the optimizer list) exactly as it received them: moving the
detached activation and the activation gradient never relocates a segment. -/
theorem splitnn_train_preserves_segment_locations :
    SplitNN.models.map SplitNN.ModelSegment.location =
      [SplitNN.Worker.alice, SplitNN.Worker.bob] ∧
    ∀ x target ms opts out, SplitNN.train x target ms opts = some out →
      out.models = ms ∧ out.optimizers = opts := by
  refine ⟨rfl, ?_⟩
  intro x target ms opts out h
  simp only [SplitNN.train, bind, Option.bind_eq_some, Option.pure_def,
    Option.some.injEq] at h
  obtain ⟨m0, hm0, m1, hm1, p0, hp0, p1, hp1, p2, hp2, g, hg, s, hs, hout⟩ := h
  subst hout
  exact ⟨rfl, rfl⟩

/-- Witness for C10: on the first batch with the notebook's concrete setup,
`train` succeeds and returns the segments on alice and bob unchanged. -/
theorem splitnn_train_preserves_segment_locations_witness :
    ∃ out, SplitNN.train ⟨SplitNN.xData 0, .alice, false, none⟩
        ⟨.labels 0, .bob, false, none⟩ SplitNN.models SplitNN.optimizers = some out ∧
      out.models = SplitNN.models ∧ out.optimizers = SplitNN.optimizers :=
  ⟨_, rfl, splitnn_train_preserves_segment_locations.2
    ⟨SplitNN.xData 0, .alice, false, none⟩ ⟨.labels 0, .bob, false, none⟩
    SplitNN.models SplitNN.optimizers _ rfl⟩

/-- Unfolding lemma: `one_hot_of` on a cons scatters 1 into a zero row. -/
theorem one_hot_of_cons (x : Nat) (xs : List Nat) :
    Encrypted.one_hot_of (x :: xs) =
      ((List.replicate 10 (0:ℚ)).set x 1) :: Encrypted.one_hot_of xs := rfl

/-- For a digit `x`, scattering 1 into a zero row of width 10 yields the
indicator row. -/
theorem set_replicate_eq_oneHotRow (x : Nat) (hx : x < 10) :
    (List.replicate 10 (0:ℚ)).set x 1 = Encrypted.oneHotRow x := by
  interval_cases x <;> rfl

/-- The sum of the indicator row over `range n` is 1 when the hot index is
in range, 0 otherwise. -/
theorem sum_indicator_range (n x : Nat) :
    ((List.range n).map (fun j => if j = x then (1:ℚ) else 0)).sum =
      if x < n then 1 else 0 := by
  induction n with
  | zero => simp
  | succ n ih =>
      rw [List.range_succ, List.map_append, List.sum_append, ih]
      by_cases hx : x < n
      · have hne : n ≠ x := by omega
        simp [hne, hx, Nat.lt_succ_of_lt hx]
      · by_cases hx2 : x = n
        · subst hx2
          simp [hx, Nat.lt_succ_self]
        · have hlt : ¬ x < n + 1 := by omega
          have hnx : n ≠ x := by omega
          simp [hx, hlt, hnx]

/-- Each indicator row sums to 1 for a digit index. -/
theorem oneHotRow_sum (x : Nat) (hx : x < 10) :
    (Encrypted.oneHotRow x).sum = 1 := by
  rw [Encrypted.oneHotRow, sum_indicator_range]
  simp [hx]

/-- Entry `j` of the indicator row is 1 iff `j` is the hot index. -/
theorem oneHotRow_get (x j : Nat) (hj : j < 10) :
    (Encrypted.oneHotRow x)[j]? = some (if j = x then (1:ℚ) else 0) := by
  simp [Encrypted.oneHotRow, List.getElem?_map, List.getElem?_range hj]

/-- Lemma: `one_hot_of` computes the rowwise indicator map on digit inputs. -/
theorem one_hot_of_eq_map (ixs : List Nat) (h : ∀ x ∈ ixs, x < 10) :
    Encrypted.one_hot_of ixs = ixs.map Encrypted.oneHotRow := by
  induction ixs with
  | nil => rfl
  | cons x xs ih =>
      rw [one_hot_of_cons, set_replicate_eq_oneHotRow x (h x (by simp)),
        List.map_cons, ih (fun y hy => h y (by simp [hy]))]

/-- C8: for every index tensor whose entries are digits in 0..9,
`one_hot_of` returns one row per input entry, each row of width 10 holding
the value 1 exactly at the column equal to that entry and 0 everywhere else,
so every row sums to 1. -/
theorem one_hot_of_is_one_hot (ixs : List Nat) (h : ∀ x ∈ ixs, x < 10) :
    (Encrypted.one_hot_of ixs).length = ixs.length ∧
    Encrypted.one_hot_of ixs = ixs.map Encrypted.oneHotRow ∧
    (∀ row ∈ Encrypted.one_hot_of ixs, row.length = 10 ∧ row.sum = 1) ∧
    (∀ x ∈ ixs, ∀ j, j < 10 →
      (Encrypted.oneHotRow x)[j]? = some (if j = x then (1:ℚ) else 0)) := by
  have hmap := one_hot_of_eq_map ixs h
  refine ⟨by rw [hmap]; simp, hmap, ?_, ?_⟩
  · intro row hrow
    rw [hmap] at hrow
    obtain ⟨x, hx, rfl⟩ := List.mem_map.mp hrow
    exact ⟨by simp [Encrypted.oneHotRow], oneHotRow_sum x (h x hx)⟩
  · intro x hx j hj
    exact oneHotRow_get x j hj

/-- Witness for C8 at the docstring example `[0, 3, 9]`. -/
theorem one_hot_of_is_one_hot_witness :
    (∀ x ∈ ([0, 3, 9] : List Nat), x < 10) ∧
      Encrypted.one_hot_of [0, 3, 9] = [0, 3, 9].map Encrypted.oneHotRow :=
  ⟨by decide, (one_hot_of_is_one_hot [0, 3, 9] (by decide)).2.1⟩

/-- Filtering `range n` by `i < k` truncates to `range k` when `k ≤ n`. -/
theorem range_filter_lt (n k : Nat) (h : k ≤ n) :
    (List.range n).filter (fun i => decide (i < k)) = List.range k := by
  induction n with
  | zero =>
      have hk : k = 0 := Nat.le_zero.mp h
      subst hk; rfl
  | succ n ih =>
      rcases Nat.lt_or_ge n k with hlt | hge
      · have hk : k = n + 1 := le_antisymm h hlt
        subst hk
        apply List.filter_eq_self.mpr
        intro a ha
        simp [List.mem_range.mp ha]
      · rw [List.range_succ, List.filter_append, ih hge]
        simp [Nat.not_lt.mpr hge]

/-- The training-loader keep condition `i < n_train_items / batch_size`
(rational division, as in Python 3) is exactly `i < 10`. -/
theorem train_keep_condition (i : Nat) :
    (decide ((i : ℚ) < (Encrypted.n_train_items : ℚ) / (Encrypted.args.batch_size : ℚ)))
      = decide (i < 10) := by
  apply decide_eq_decide.mpr
  show (i : ℚ) < (Encrypted.n_train_items : ℚ) / (Encrypted.args.batch_size : ℚ) ↔ i < 10
  have h10 : (Encrypted.n_train_items : ℚ) / (Encrypted.args.batch_size : ℚ) = (10 : Nat) := by
    norm_num [Encrypted.n_train_items, Encrypted.args]
  rw [h10, Nat.cast_lt]

/-- The test-loader keep condition `i < n_test_items / test_batch_size` is
exactly `i < 10`. -/
theorem test_keep_condition (i : Nat) :
    (decide ((i : ℚ) < (Encrypted.n_test_items : ℚ) / (Encrypted.args.test_batch_size : ℚ)))
      = decide (i < 10) := by
  apply decide_eq_decide.mpr
  show (i : ℚ) < (Encrypted.n_test_items : ℚ) / (Encrypted.args.test_batch_size : ℚ) ↔ i < 10
  have h10 : (Encrypted.n_test_items : ℚ) / (Encrypted.args.test_batch_size : ℚ) = (10 : Nat) := by
    norm_num [Encrypted.n_test_items, Encrypted.args]
  rw [h10, Nat.cast_lt]

/-- C9: whenever the MNIST loaders yield at least 10 batches (938 and 157
for real MNIST at batch size 64), `get_private_data_loaders` keeps exactly
the first ceil(640 / 64) = 10 training batches and the first 10 test
batches, discarding the rest; so each private loader holds 10 batches,
i.e. at most 10 x 64 = 640 = n_train_items (resp. n_test_items) examples. -/
theorem private_loaders_truncate_to_ten_batches (tb vb : Nat)
    (htb : 10 ≤ tb) (hvb : 10 ≤ vb) :
    (Encrypted.get_private_data_loaders Encrypted.args.precision_fractional
        Encrypted.workers Encrypted.crypto_provider tb vb).1 =
      (List.range 10).map (fun i =>
        (Encrypted.secret_share Encrypted.args.precision_fractional Encrypted.workers
           Encrypted.crypto_provider (.raw (.dataBatch i)),
         Encrypted.secret_share Encrypted.args.precision_fractional Encrypted.workers
           Encrypted.crypto_provider (.raw (.oneHotLabelBatch i)))) ∧
    (Encrypted.get_private_data_loaders Encrypted.args.precision_fractional
        Encrypted.workers Encrypted.crypto_provider tb vb).2 =
      (List.range 10).map (fun i =>
        (Encrypted.secret_share Encrypted.args.precision_fractional Encrypted.workers
           Encrypted.crypto_provider (.raw (.testDataBatch i)),
         Encrypted.secret_share Encrypted.args.precision_fractional Encrypted.workers
           Encrypted.crypto_provider (.raw (.testLabelBatch i)))) ∧
    (Encrypted.get_private_data_loaders Encrypted.args.precision_fractional
        Encrypted.workers Encrypted.crypto_provider tb vb).1.length = 10 ∧
    (Encrypted.get_private_data_loaders Encrypted.args.precision_fractional
        Encrypted.workers Encrypted.crypto_provider tb vb).2.length = 10 ∧
    (Encrypted.get_private_data_loaders Encrypted.args.precision_fractional
        Encrypted.workers Encrypted.crypto_provider tb vb).1.length *
      Encrypted.args.batch_size = Encrypted.n_train_items ∧
    (Encrypted.get_private_data_loaders Encrypted.args.precision_fractional
        Encrypted.workers Encrypted.crypto_provider tb vb).2.length *
      Encrypted.args.test_batch_size = Encrypted.n_test_items := by
  have h1 : ((List.range tb).filter
      (fun (i : Nat) => decide ((i : ℚ) <
        (Encrypted.n_train_items : ℚ) / (Encrypted.args.batch_size : ℚ)))) = List.range 10 := by
    rw [List.filter_congr (fun i _ => train_keep_condition i), range_filter_lt tb 10 htb]
  have h2 : ((List.range vb).filter
      (fun (i : Nat) => decide ((i : ℚ) <
        (Encrypted.n_test_items : ℚ) / (Encrypted.args.test_batch_size : ℚ)))) = List.range 10 := by
    rw [List.filter_congr (fun i _ => test_keep_condition i), range_filter_lt vb 10 hvb]
  refine ⟨?_, ?_, ?_, ?_, ?_, ?_⟩ <;>
    simp only [Encrypted.get_private_data_loaders, h1, h2, List.length_map,
      List.length_range] <;> rfl

/-- Witness for C9 at loaders yielding exactly 10 batches. -/
theorem private_loaders_truncate_to_ten_batches_witness :
    10 ≤ 10 ∧
      (Encrypted.get_private_data_loaders Encrypted.args.precision_fractional
          Encrypted.workers Encrypted.crypto_provider 10 10).1.length = 10 :=
  ⟨by decide,
   (private_loaders_truncate_to_ten_batches 10 10 (by decide) (by decide)).2.2.1⟩

/-- C2: every tensor placed into the private data loaders (training inputs,
one-hot training labels, test inputs, test labels) is converted to
fixed-precision integer encoding with `precision_fractional = 3` and only
then secret shared among the workers, and every model parameter used in
encrypted training is likewise fixed-precision encoded (at the library
default precision) and then secret shared, so the values entering the MPC
computation are ring integers, never raw real-valued tensors. -/
theorem private_data_and_model_fixed_precision_before_sharing (tb vb : Nat) :
    (∀ pr ∈ (Encrypted.get_private_data_loaders Encrypted.args.precision_fractional
        Encrypted.workers Encrypted.crypto_provider tb vb).1,
      Encrypted.isFixedThenShared 3 Encrypted.workers Encrypted.crypto_provider pr.1 = true ∧
      Encrypted.isFixedThenShared 3 Encrypted.workers Encrypted.crypto_provider pr.2 = true) ∧
    (∀ pr ∈ (Encrypted.get_private_data_loaders Encrypted.args.precision_fractional
        Encrypted.workers Encrypted.crypto_provider tb vb).2,
      Encrypted.isFixedThenShared 3 Encrypted.workers Encrypted.crypto_provider pr.1 = true ∧
      Encrypted.isFixedThenShared 3 Encrypted.workers Encrypted.crypto_provider pr.2 = true) ∧
    (∀ defaultPrec, ∀ p ∈ Encrypted.shared_model defaultPrec,
      Encrypted.isFixedThenShared defaultPrec Encrypted.workers
        Encrypted.crypto_provider p = true) := by
  refine ⟨?_, ?_, ?_⟩
  · intro pr hpr
    simp only [Encrypted.get_private_data_loaders, List.mem_map] at hpr
    obtain ⟨i, _, rfl⟩ := hpr
    exact ⟨rfl, rfl⟩
  · intro pr hpr
    simp only [Encrypted.get_private_data_loaders, List.mem_map] at hpr
    obtain ⟨i, _, rfl⟩ := hpr
    exact ⟨rfl, rfl⟩
  · intro defaultPrec p hp
    simp only [Encrypted.shared_model, List.mem_map] at hp
    obtain ⟨nm, _, rfl⟩ := hp
    simp [Encrypted.isFixedThenShared, Encrypted.EncTensor.fix_precision,
      Encrypted.EncTensor.share]

/-- Witness for C2: the first private training batch of a one-batch loader
is fixed-precision encoded at precision 3 and then shared. -/
theorem private_data_fixed_precision_before_sharing_witness :
    Encrypted.isFixedThenShared 3 Encrypted.workers Encrypted.crypto_provider
      (Encrypted.secret_share 3 Encrypted.workers Encrypted.crypto_provider
        (.raw (.dataBatch 0))) = true := by
  have hl : (Encrypted.get_private_data_loaders Encrypted.args.precision_fractional
      Encrypted.workers Encrypted.crypto_provider 1 1).1 =
      [(Encrypted.secret_share 3 Encrypted.workers Encrypted.crypto_provider (.raw (.dataBatch 0)),
        Encrypted.secret_share 3 Encrypted.workers Encrypted.crypto_provider (.raw (.oneHotLabelBatch 0)))] := by
    simp only [Encrypted.get_private_data_loaders]
    rw [List.filter_congr (fun i _ => train_keep_condition i)]
    rfl
  have hm : (Encrypted.secret_share 3 Encrypted.workers Encrypted.crypto_provider (.raw (.dataBatch 0)),
      Encrypted.secret_share 3 Encrypted.workers Encrypted.crypto_provider (.raw (.oneHotLabelBatch 0))) ∈
      (Encrypted.get_private_data_loaders Encrypted.args.precision_fractional
        Encrypted.workers Encrypted.crypto_provider 1 1).1 := by
    rw [hl]
    exact List.mem_singleton.mpr rfl
  exact ((private_data_and_model_fixed_precision_before_sharing 1 1).1 _ hm).1

/-- Every event recorded during loader construction and model sharing is a
share event whose owners are the two workers and whose provider is the
crypto provider. -/
theorem mem_dataSharePhase_shape (dp tb vb : Nat) (e : Encrypted.RunEvent)
    (he : e ∈ Encrypted.dataSharePhase dp tb vb) :
    ∃ p, e = .shareEvent p Encrypted.workers Encrypted.crypto_provider := by
  simp only [Encrypted.dataSharePhase, List.mem_append, Encrypted.shareEventsOfLoader,
    List.mem_flatMap] at he
  rcases he with (⟨pr, hpr, hepr⟩ | ⟨pr, hpr, hepr⟩) | ⟨t, ht, het⟩
  · simp only [Encrypted.get_private_data_loaders, List.mem_map] at hpr
    obtain ⟨i, _, rfl⟩ := hpr
    simp only [Encrypted.secret_share, Encrypted.EncTensor.share,
      Encrypted.EncTensor.fix_precision, Encrypted.EncTensor.shareEvents,
      Encrypted.EncTensor.plainOf, List.nil_append, List.mem_append,
      List.mem_singleton] at hepr
    rcases hepr with rfl | rfl
    · exact ⟨_, rfl⟩
    · exact ⟨_, rfl⟩
  · simp only [Encrypted.get_private_data_loaders, List.mem_map] at hpr
    obtain ⟨i, _, rfl⟩ := hpr
    simp only [Encrypted.secret_share, Encrypted.EncTensor.share,
      Encrypted.EncTensor.fix_precision, Encrypted.EncTensor.shareEvents,
      Encrypted.EncTensor.plainOf, List.nil_append, List.mem_append,
      List.mem_singleton] at hepr
    rcases hepr with rfl | rfl
    · exact ⟨_, rfl⟩
    · exact ⟨_, rfl⟩
  · simp only [Encrypted.shared_model, List.mem_map] at ht
    obtain ⟨nm, _, rfl⟩ := ht
    simp only [Encrypted.EncTensor.share, Encrypted.EncTensor.fix_precision,
      Encrypted.EncTensor.shareEvents, Encrypted.EncTensor.plainOf,
      List.nil_append, List.mem_singleton] at het
    exact ⟨_, het⟩

/-- Every event of the training/testing phase is a reveal of a per-batch
aggregate loss or of a per-epoch correct-prediction count. -/
theorem mem_trainTestPhase_shape (tb vb : Nat) (e : Encrypted.RunEvent)
    (he : e ∈ Encrypted.trainTestPhase tb vb) :
    (∃ ep bi, e = .revealEvent (.batchLoss ep bi)) ∨
    (∃ ep, e = .revealEvent (.correctCount ep)) := by
  simp only [Encrypted.trainTestPhase, List.mem_flatMap, List.mem_append] at he
  obtain ⟨ep, _, h⟩ := he
  rcases h with h | h
  · simp only [Encrypted.trainEvents, List.mem_flatMap] at h
    obtain ⟨bi, _, hb⟩ := h
    split at hb
    · exact Or.inl ⟨ep + 1, bi, List.mem_singleton.mp hb⟩
    · exact absurd hb (List.not_mem_nil e)
  · exact Or.inr ⟨ep + 1, List.mem_singleton.mp h⟩

/-- C5: the crypto provider is a worker distinct from the two share-holding
workers (`worker1` and `worker2`), and every share of data, labels or model
parameters over the notebook run is distributed only across the two
data-holding workers, with the crypto provider appearing solely as the
provider of crypto primitives and never receiving a share. -/
theorem crypto_provider_distinct_and_holds_no_share (dp tb vb : Nat) :
    Encrypted.crypto_provider ∉ Encrypted.workers ∧
    Encrypted.workers = [⟨"worker1"⟩, ⟨"worker2"⟩] ∧
    (∀ e ∈ Encrypted.fullRunEvents dp tb vb, ∀ p o c,
      e = Encrypted.RunEvent.shareEvent p o c →
        o = Encrypted.workers ∧ c = Encrypted.crypto_provider ∧
        Encrypted.crypto_provider ∉ o) := by
  refine ⟨by decide, by decide, ?_⟩
  intro e he p o c hec
  subst hec
  rcases List.mem_append.mp he with h | h
  · obtain ⟨q, hq⟩ := mem_dataSharePhase_shape dp tb vb _ h
    simp only [Encrypted.RunEvent.shareEvent.injEq] at hq
    obtain ⟨-, rfl, rfl⟩ := hq
    exact ⟨rfl, rfl, by decide⟩
  · rcases mem_trainTestPhase_shape tb vb _ h with ⟨ep, bi, hq⟩ | ⟨ep, hq⟩ <;>
      simp at hq

/-- Witness for C5: the share of the first data batch in a one-batch run is
held by the two workers, with the crypto provider holding no share. -/
theorem crypto_provider_distinct_and_holds_no_share_witness :
    Encrypted.workers = Encrypted.workers ∧
    Encrypted.crypto_provider = Encrypted.crypto_provider ∧
    Encrypted.crypto_provider ∉ Encrypted.workers := by
  have hl : (Encrypted.get_private_data_loaders Encrypted.args.precision_fractional
      Encrypted.workers Encrypted.crypto_provider 1 1).1 =
      [(Encrypted.secret_share 3 Encrypted.workers Encrypted.crypto_provider (.raw (.dataBatch 0)),
        Encrypted.secret_share 3 Encrypted.workers Encrypted.crypto_provider (.raw (.oneHotLabelBatch 0)))] := by
    simp only [Encrypted.get_private_data_loaders]
    rw [List.filter_congr (fun i _ => train_keep_condition i)]
    rfl
  have hm : Encrypted.RunEvent.shareEvent (.dataBatch 0) Encrypted.workers
      Encrypted.crypto_provider ∈ Encrypted.fullRunEvents 3 1 1 := by
    apply List.mem_append_left
    simp only [Encrypted.dataSharePhase]
    apply List.mem_append_left
    apply List.mem_append_left
    refine List.mem_flatMap.mpr
      ⟨(Encrypted.secret_share 3 Encrypted.workers Encrypted.crypto_provider (.raw (.dataBatch 0)),
        Encrypted.secret_share 3 Encrypted.workers Encrypted.crypto_provider (.raw (.oneHotLabelBatch 0))),
       ?_, ?_⟩
    · rw [hl]
      exact List.mem_singleton.mpr rfl
    · simp [Encrypted.secret_share, Encrypted.EncTensor.share,
        Encrypted.EncTensor.fix_precision, Encrypted.EncTensor.shareEvents,
        Encrypted.EncTensor.plainOf]
  exact (crypto_provider_distinct_and_holds_no_share 3 1 1).2.2 _ hm _ _ _ rfl

/-- C4: over the whole encrypted-training run, all secret sharing of data
and labels happens in the loader-construction phase, before any training or
testing use; the training/testing phase brings values to the local party
only through reveal events, every reveal is either a per-batch aggregate
loss (`loss.get().float_precision()`) or a per-epoch aggregate
correct-prediction count (`correct.get().float_precision()`), and no event
ever reveals a plaintext data or label tensor (or model parameter) to the
local party; moreover each tensor of both private loaders is secret shared
between the two workers during the sharing phase. -/
theorem local_party_reveals_only_aggregates (dp tb vb : Nat) :
    Encrypted.fullRunEvents dp tb vb =
      Encrypted.dataSharePhase dp tb vb ++ Encrypted.trainTestPhase tb vb ∧
    (∀ e ∈ Encrypted.dataSharePhase dp tb vb, ∃ p o c,
        e = Encrypted.RunEvent.shareEvent p o c) ∧
    (∀ e ∈ Encrypted.trainTestPhase tb vb, ∃ v,
        e = Encrypted.RunEvent.revealEvent v) ∧
    (∀ e ∈ Encrypted.fullRunEvents dp tb vb, ∀ p : Encrypted.Plain,
        e ≠ Encrypted.RunEvent.revealEvent (.fromPlain p)) ∧
    (∀ e ∈ Encrypted.fullRunEvents dp tb vb, ∀ v,
        e = Encrypted.RunEvent.revealEvent v →
          (∃ ep bi, v = Encrypted.MPCVal.batchLoss ep bi) ∨
          (∃ ep, v = Encrypted.MPCVal.correctCount ep)) ∧
    (∀ pr ∈ (Encrypted.get_private_data_loaders Encrypted.args.precision_fractional
        Encrypted.workers Encrypted.crypto_provider tb vb).1,
      Encrypted.RunEvent.shareEvent pr.1.plainOf Encrypted.workers
          Encrypted.crypto_provider ∈ Encrypted.dataSharePhase dp tb vb ∧
      Encrypted.RunEvent.shareEvent pr.2.plainOf Encrypted.workers
          Encrypted.crypto_provider ∈ Encrypted.dataSharePhase dp tb vb) ∧
    (∀ pr ∈ (Encrypted.get_private_data_loaders Encrypted.args.precision_fractional
        Encrypted.workers Encrypted.crypto_provider tb vb).2,
      Encrypted.RunEvent.shareEvent pr.1.plainOf Encrypted.workers
          Encrypted.crypto_provider ∈ Encrypted.dataSharePhase dp tb vb ∧
      Encrypted.RunEvent.shareEvent pr.2.plainOf Encrypted.workers
          Encrypted.crypto_provider ∈ Encrypted.dataSharePhase dp tb vb) := by
  refine ⟨rfl, ?_, ?_, ?_, ?_, ?_, ?_⟩
  · intro e he
    obtain ⟨p, hp⟩ := mem_dataSharePhase_shape dp tb vb e he
    exact ⟨p, _, _, hp⟩
  · intro e he
    rcases mem_trainTestPhase_shape tb vb e he with ⟨ep, bi, hq⟩ | ⟨ep, hq⟩
    · exact ⟨_, hq⟩
    · exact ⟨_, hq⟩
  · intro e he p
    rcases List.mem_append.mp he with h | h
    · obtain ⟨q, hq⟩ := mem_dataSharePhase_shape dp tb vb _ h
      subst hq
      simp
    · rcases mem_trainTestPhase_shape tb vb _ h with ⟨ep, bi, hq⟩ | ⟨ep, hq⟩ <;>
        subst hq <;> simp
  · intro e he v hev
    subst hev
    rcases List.mem_append.mp he with h | h
    · obtain ⟨q, hq⟩ := mem_dataSharePhase_shape dp tb vb _ h
      simp at hq
    · rcases mem_trainTestPhase_shape tb vb _ h with ⟨ep, bi, hq⟩ | ⟨ep, hq⟩
      · simp only [Encrypted.RunEvent.revealEvent.injEq] at hq
        exact Or.inl ⟨ep, bi, hq⟩
      · simp only [Encrypted.RunEvent.revealEvent.injEq] at hq
        exact Or.inr ⟨ep, hq⟩
  · intro pr hpr
    have hpr2 := hpr
    simp only [Encrypted.get_private_data_loaders, List.mem_map] at hpr2
    obtain ⟨i, hi, rfl⟩ := hpr2
    constructor <;>
    · simp only [Encrypted.dataSharePhase]
      refine List.mem_append_left _ (List.mem_append_left _ ?_)
      refine List.mem_flatMap.mpr ⟨_, hpr, ?_⟩
      simp [Encrypted.secret_share, Encrypted.EncTensor.share,
        Encrypted.EncTensor.fix_precision, Encrypted.EncTensor.shareEvents,
        Encrypted.EncTensor.plainOf]
  · intro pr hpr
    have hpr2 := hpr
    simp only [Encrypted.get_private_data_loaders, List.mem_map] at hpr2
    obtain ⟨i, hi, rfl⟩ := hpr2
    constructor <;>
    · simp only [Encrypted.dataSharePhase]
      refine List.mem_append_left _ (List.mem_append_right _ ?_)
      refine List.mem_flatMap.mpr ⟨_, hpr, ?_⟩
      simp [Encrypted.secret_share, Encrypted.EncTensor.share,
        Encrypted.EncTensor.fix_precision, Encrypted.EncTensor.shareEvents,
        Encrypted.EncTensor.plainOf]

/-- Witness for C4: the reveal of the epoch-1, batch-0 loss in a one-batch
run is classified as an aggregate loss reveal. -/
theorem local_party_reveals_only_aggregates_witness :
    (∃ ep bi, Encrypted.MPCVal.batchLoss 1 0 = Encrypted.MPCVal.batchLoss ep bi) ∨
    (∃ ep, Encrypted.MPCVal.batchLoss 1 0 = Encrypted.MPCVal.correctCount ep) := by
  have hl : (Encrypted.get_private_data_loaders Encrypted.args.precision_fractional
      Encrypted.workers Encrypted.crypto_provider 1 1).1 =
      [(Encrypted.secret_share 3 Encrypted.workers Encrypted.crypto_provider (.raw (.dataBatch 0)),
        Encrypted.secret_share 3 Encrypted.workers Encrypted.crypto_provider (.raw (.oneHotLabelBatch 0)))] := by
    simp only [Encrypted.get_private_data_loaders]
    rw [List.filter_congr (fun i _ => train_keep_condition i)]
    rfl
  have hm : Encrypted.RunEvent.revealEvent (.batchLoss 1 0) ∈
      Encrypted.fullRunEvents 3 1 1 := by
    apply List.mem_append_right
    simp only [Encrypted.trainTestPhase]
    refine List.mem_flatMap.mpr ⟨0, by simp [Encrypted.args], ?_⟩
    apply List.mem_append_left
    simp only [Encrypted.trainEvents]
    refine List.mem_flatMap.mpr ⟨0, ?_, ?_⟩
    · rw [hl]
      simp
    · simp [Encrypted.args]
  exact (local_party_reveals_only_aggregates 3 1 1).2.2.2.2.1 _ hm _ rfl

/-- C6: every worker of both notebooks (alice, bob, worker1, worker2,
crypto_provider) is created as an in-process `sy.VirtualWorker`, and no
module imported by either notebook provides threads, processes, sockets or
locks, so all multi-party behaviour is a single-threaded, synchronous,
in-process simulation. -/
theorem notebooks_use_only_in_process_virtual_workers :
    (∀ w ∈ Inventory.workerCreations, w.kind = .virtualWorker) ∧
    (∀ m ∈ Inventory.importedModules, m ∉ Inventory.concurrencyModules) ∧
    (Encrypted.connect_to_workers 2).map Encrypted.VirtualWorker.id =
      ["worker1", "worker2"] ∧
    Encrypted.connect_to_crypto_provider.id = "crypto_provider" := by
  refine ⟨by decide, by decide, by decide, rfl⟩

/-- Witness for C6: the creation of alice in the SplitNN notebook is an
in-process virtual worker. -/
theorem notebooks_use_only_in_process_virtual_workers_witness :
    (⟨"SplitNN Introduction", "alice", .virtualWorker⟩ : Inventory.WorkerCreation).kind =
      Inventory.WorkerKind.virtualWorker :=
  notebooks_use_only_in_process_virtual_workers.1 _ (by decide)
